import Mathlib

/-!
Shallow embedding of the motion-control core of a differential-drive
robot base (`src/src/baseControl.cpp`).

The two periodic loops (`baseControl`, `baseMotorControl`), the blocking
wait (`waitBase`) and the reset (`resetCoords`) only use field arithmetic,
absolute values and comparisons, so they are embedded over `ℚ` and stay
executable.  The motion-command layer (`baseMove`, `baseTurn`,
`baseTurnRelative`) uses `atan2` and `sqrt` and is embedded over `ℝ`.

Constants such as `inPerDeg`, `baseWidth`, `DISTANCE_LEEWAY`,
`RAMPING_POW` and `MAX_POW` are declared in a project header that is not
part of the sources here; they appear as explicit parameters of the
embedded definitions.  The helper `abscap` is likewise declared outside
the given sources and is modelled from the spec.
-/

namespace BaseCtl

/-- Modelled from the spec: the helper `abscap` (declared in a project
header outside the given sources) clamps a value to `±cap`; the spec
describes its two uses as "clamp `requestedDelta` to `±rampStep`" and
"clamp the ramped power to `±CapState.limit` ... else to
`±defaultMaxPower`". -/
def abscap (v cap : ℚ) : ℚ :=
  if v > cap then cap else if v < -cap then -cap else v

/-- The continuation condition of the polling loop in `waitBase`
(line 241 of `baseControl.cpp`):
`fabs(targetEncdL - BL.get_position()) > DISTANCE_LEEWAY &&
 fabs(targetEncdR - BR.get_position()) > DISTANCE_LEEWAY &&
 (millis()-start) < cutoff`.
The loop keeps polling exactly while this returns `true`. -/
def waitBaseContinue (leeway targL posL targR posR elapsed cutoff : ℚ) : Bool :=
  decide (|targL - posL| > leeway) &&
    decide (|targR - posR| > leeway) &&
      decide (elapsed < cutoff)

/-- Per-tick inputs read by the `baseControl` task: the shared target
encoder values, the encoder readings `BL.get_position()` and
`BR.get_position()`, and the shared gains `kP`, `kD` current at that
tick. -/
structure CtrlIn where
  targL : ℚ
  targR : ℚ
  encdL : ℚ
  encdR : ℚ
  kp : ℚ
  kd : ℚ
  deriving DecidableEq, Repr

/-- One tick of the `baseControl` task.  From the stored previous errors
it computes the current errors and the PD powers
`kP*error + kD*(error - prevError)`, returning the new stored errors and
the written `(targetPowerL, targetPowerR)`. -/
def ctrlTick (prev : ℚ × ℚ) (i : CtrlIn) : (ℚ × ℚ) × (ℚ × ℚ) :=
  let errL := i.targL - i.encdL
  let errR := i.targR - i.encdR
  ((errL, errR),
    (i.kp * errL + i.kd * (errL - prev.1),
      i.kp * errR + i.kd * (errR - prev.2)))

/-- The sequence of powers written by successive `baseControl` ticks,
threading the stored previous errors. -/
def ctrlRunAux (prev : ℚ × ℚ) : List CtrlIn → List (ℚ × ℚ)
  | [] => []
  | i :: is => (ctrlTick prev i).2 :: ctrlRunAux (ctrlTick prev i).1 is

/-- A full run of the `baseControl` task: the local errors
`prevErrorEncdL`, `prevErrorEncdR` start at `0`. -/
def ctrlRun (is : List CtrlIn) : List (ℚ × ℚ) :=
  ctrlRunAux (0, 0) is

/-- Configuration read by one `baseMotorControl` tick: `RAMPING_POW`, the
`basePowCapped` flag, `absPowerCap` and `MAX_POW`. -/
structure MotorParams where
  ramp : ℚ
  capped : Bool
  absCap : ℚ
  maxPow : ℚ
  deriving DecidableEq, Repr

/-- The bound actually applied by the capping stage: `absPowerCap` when
`basePowCapped` is set, `MAX_POW` otherwise. -/
def activeLimit (pr : MotorParams) : ℚ :=
  if pr.capped then pr.absCap else pr.maxPow

/-- The ramping stage of a `baseMotorControl` tick:
`power += abscap(targetPower - power, RAMPING_POW)`. -/
def rampStage (pr : MotorParams) (power target : ℚ) : ℚ :=
  power + abscap (target - power) pr.ramp

/-- The capping stage of a `baseMotorControl` tick:
`abscap(power, absPowerCap)` when capped, else `abscap(power, MAX_POW)`. -/
def capStage (pr : MotorParams) (power : ℚ) : ℚ :=
  if pr.capped then abscap power pr.absCap else abscap power pr.maxPow

/-- The new value of the loop-local `powerL` (resp. `powerR`) after one
`baseMotorControl` tick with stored power `power` and requested target
power `target`: ramping followed by capping. -/
def motorTickPower (pr : MotorParams) (power target : ℚ) : ℚ :=
  capStage pr (rampStage pr power target)

/-- One `baseMotorControl` tick observed from outside: the input is the
`basePaused` flag together with the requested target power; the output is
the new stored power and the value written to the motors (`none` when the
write is skipped because `basePaused` is set). -/
def motorStep (pr : MotorParams) (power : ℚ) (i : Bool × ℚ) : ℚ × Option ℚ :=
  (motorTickPower pr power i.2,
    if i.1 then none else some (motorTickPower pr power i.2))

/-- A run of the `baseMotorControl` task over a list of
(paused-flag, target-power) inputs, threading the loop-local power. -/
def motorRun (pr : MotorParams) (power : ℚ) : List (Bool × ℚ) → List (ℚ × Option ℚ)
  | [] => []
  | i :: is => motorStep pr power i :: motorRun pr (motorStep pr power i).1 is

/-- The loop-local power after a run of `baseMotorControl` ticks. -/
def powerAfter (pr : MotorParams) (power : ℚ) : List (Bool × ℚ) → ℚ
  | [] => power
  | i :: is => powerAfter pr (motorTickPower pr power i.2) is

/-- The shared state touched by `resetCoords` and read by the loops: the
pose kept by the position provider, the four motor encoder counters, and
the two target encoder values. -/
structure SysSt where
  posX : ℚ
  posY : ℚ
  posAngleDeg : ℚ
  encdFL : ℚ
  encdFR : ℚ
  encdBL : ℚ
  encdBR : ℚ
  targetEncdL : ℚ
  targetEncdR : ℚ
  deriving DecidableEq, Repr

/-- The statements of `resetCoords(x, y, angleDeg)` in source order, each
as one atomic update of the shared state: `position.setCoords(x, y,
angleDeg)`, the four `tare_position()` calls on `FL`, `FR`, `BL`, `BR`,
then `targetEncdL = 0` and `targetEncdR = 0`.  A concurrently running
loop tick may observe the shared state between any two of them. -/
def resetSteps (x y a : ℚ) : List (SysSt → SysSt) :=
  [fun s => { s with posX := x, posY := y, posAngleDeg := a },
    fun s => { s with encdFL := 0 },
    fun s => { s with encdFR := 0 },
    fun s => { s with encdBL := 0 },
    fun s => { s with encdBR := 0 },
    fun s => { s with targetEncdL := 0 },
    fun s => { s with targetEncdR := 0 }]

/-- Run a list of atomic updates in order. -/
def runSteps (fs : List (SysSt → SysSt)) (s : SysSt) : SysSt :=
  fs.foldl (fun st f => f st) s

/-- The complete `resetCoords(x, y, angleDeg)`: all its statements run to
completion. -/
def resetCoords (x y a : ℚ) (s : SysSt) : SysSt :=
  runSteps (resetSteps x y a) s

/-- The shared state a loop tick observes when it interleaves after the
first `k` statements of `resetCoords(x, y, a)`. -/
def observeAfter (k : ℕ) (x y a : ℚ) (s : SysSt) : SysSt :=
  runSteps ((resetSteps x y a).take k) s

end BaseCtl

namespace BaseCtl

/-! ### Helper lemmas about `abscap` and the capping stage -/

theorem abscap_abs_le (v : ℚ) {c : ℚ} (hc : 0 ≤ c) : |abscap v c| ≤ c := by
  unfold abscap
  split_ifs with h1 h2 <;> rw [abs_le] <;> constructor <;> linarith

theorem abscap_eq_self {v c : ℚ} (h1 : -c ≤ v) (h2 : v ≤ c) : abscap v c = v := by
  unfold abscap
  split_ifs with ha hb <;> linarith

theorem abscap_contract {a c : ℚ} (v : ℚ) (h1 : -c ≤ a) (h2 : a ≤ c) :
    |abscap v c - a| ≤ |v - a| := by
  unfold abscap
  split_ifs with ha hb <;> rw [abs_le] <;>
    constructor <;> linarith [abs_nonneg (v - a), le_abs_self (v - a), neg_abs_le (v - a)]

theorem abscap_nonneg {v c : ℚ} (hv : 0 ≤ v) (hc : 0 ≤ c) : 0 ≤ abscap v c := by
  unfold abscap
  split_ifs <;> linarith

theorem abscap_nonpos {v c : ℚ} (hv : v ≤ 0) (hc : 0 ≤ c) : abscap v c ≤ 0 := by
  unfold abscap
  split_ifs <;> linarith

theorem abscap_le_self_of_nonneg {v c : ℚ} (hv : 0 ≤ v) (hc : 0 ≤ c) :
    abscap v c ≤ v := by
  unfold abscap
  split_ifs <;> linarith

theorem abscap_of_ge {v c : ℚ} (hc : 0 ≤ c) (h : c ≤ v) : abscap v c = c := by
  unfold abscap
  split_ifs <;> linarith

theorem abscap_of_le_neg {v c : ℚ} (hc : 0 ≤ c) (h : v ≤ -c) : abscap v c = -c := by
  unfold abscap
  split_ifs <;> linarith

theorem capStage_eq (pr : MotorParams) (p : ℚ) :
    capStage pr p = abscap p (activeLimit pr) := by
  cases h : pr.capped <;> simp [capStage, activeLimit, h]

end BaseCtl

namespace BaseCtl

/-! ### Helper lemmas about `motorRun` -/

theorem motorRun_map_fst_clear (pr : MotorParams) (is : List (Bool × ℚ)) :
    ∀ p : ℚ, (motorRun pr p is).map Prod.fst =
      (motorRun pr p (is.map (fun i => (false, i.2)))).map Prod.fst := by
  induction is with
  | nil => intro p; rfl
  | cons i is ih =>
      intro p
      simp only [List.map_cons, motorRun, motorStep]
      exact congrArg (motorTickPower pr p i.2 :: ·) (ih (motorTickPower pr p i.2))

theorem motorRun_append_unpaused (pr : MotorParams) (is : List (Bool × ℚ)) :
    ∀ (p t : ℚ), motorRun pr p (is ++ [(false, t)]) =
      motorRun pr p is ++
        [(motorTickPower pr (powerAfter pr p is) t,
          some (motorTickPower pr (powerAfter pr p is) t))] := by
  induction is with
  | nil => intro p t; simp [motorRun, motorStep, powerAfter]
  | cons i is ih =>
      intro p t
      simp only [List.cons_append, motorRun, motorStep, powerAfter]
      exact congrArg _ (ih (motorTickPower pr p i.2) t)

end BaseCtl

namespace BaseCtl

/-! ### Claim theorems for the loops, the wait utility and the reset -/

/-- C1.  The `waitBase` poll loop joins its two error conditions with
`&&`, so it stops polling as soon as EITHER side's error is within
`DISTANCE_LEEWAY` — not only when both are within or the cutoff has
elapsed.  First conjunct: the exact exit characterisation of the loop
condition.  Remaining conjuncts: a concrete execution state in which the
loop exits (condition is `false`) although the left error `100` still
exceeds the leeway `5` and no time of the `1000` ms cutoff has elapsed,
contradicting the claimed exit guarantee. -/
theorem c1_waitBase_exit_bug :
    (∀ leeway targL posL targR posR elapsed cutoff : ℚ,
        waitBaseContinue leeway targL posL targR posR elapsed cutoff = false ↔
          (|targL - posL| ≤ leeway ∨ |targR - posR| ≤ leeway ∨ cutoff ≤ elapsed)) ∧
    waitBaseContinue 5 100 0 0 0 0 1000 = false ∧
    (5 : ℚ) < |(100 : ℚ) - 0| ∧ (0 : ℚ) < 1000 := by
  refine ⟨fun leeway targL posL targR posR elapsed cutoff => ?_,
    by norm_num [waitBaseContinue], by norm_num, by norm_num⟩
  rw [waitBaseContinue]
  simp only [Bool.and_eq_false_iff, decide_eq_false_iff_not, not_lt, gt_iff_lt, or_assoc]

/-- C4.  Each `baseControl` tick writes `kP*error + kD*(error -
prevError)` for each side, stores the current errors as the new previous
errors, and a run starts from previous errors `(0, 0)`; with
`target = 100`, `current = 0`, `kP = 1`, `kD = 0` the first tick writes
power `100`, and a second tick with the encoder advanced to `100` writes
power `0`. -/
theorem c4_pd_tick_law :
    (∀ (prev : ℚ × ℚ) (i : CtrlIn),
        (ctrlTick prev i).2 =
          (i.kp * (i.targL - i.encdL) + i.kd * ((i.targL - i.encdL) - prev.1),
            i.kp * (i.targR - i.encdR) + i.kd * ((i.targR - i.encdR) - prev.2)) ∧
        (ctrlTick prev i).1 = (i.targL - i.encdL, i.targR - i.encdR)) ∧
    (∀ is : List CtrlIn, ctrlRun is = ctrlRunAux (0, 0) is) ∧
    ctrlRun [⟨100, 100, 0, 0, 1, 0⟩, ⟨100, 100, 100, 100, 1, 0⟩] = [(100, 100), (0, 0)] :=
  ⟨fun _ _ => ⟨rfl, rfl⟩, fun _ => rfl, by norm_num [ctrlRun, ctrlRunAux, ctrlTick]⟩

/-- C5.  Slew-rate limit of the `baseMotorControl` tick.  First part,
for every tick with the stored power within the active limit (which
holds along every run with a fixed cap configuration, since the stored
power starts at `0` and is capped on every tick): the new power differs
from the stored power by at most `RAMPING_POW`, however large the
requested target power is; when the target lies above the stored power
and within the active limit, the new power moves monotonically toward it
without overshooting; and while the gap to the target is at least
`RAMPING_POW` (and the ramped value stays within the limit) the tick
advances by exactly `RAMPING_POW`.  Second part: with the target jumping
from `0` to `100`, `RAMPING_POW = 15`, no cap and `MAX_POW = 127`, the
applied power sequence is exactly `15, 30, 45, 60, 75, 90, 100, 100` —
monotonically approaching `100`, reaching it, never exceeding it and
never decreasing. -/
theorem c5_slew_rate_limit :
    (∀ (pr : MotorParams) (power target : ℚ),
        0 ≤ pr.ramp → |power| ≤ activeLimit pr →
        |motorTickPower pr power target - power| ≤ pr.ramp ∧
        (power ≤ target → |target| ≤ activeLimit pr →
          power ≤ motorTickPower pr power target ∧
            motorTickPower pr power target ≤ target) ∧
        (pr.ramp ≤ target - power → |power + pr.ramp| ≤ activeLimit pr →
          motorTickPower pr power target = power + pr.ramp)) ∧
    (motorRun ⟨15, false, 0, 127⟩ 0
        [(false, 100), (false, 100), (false, 100), (false, 100),
          (false, 100), (false, 100), (false, 100), (false, 100)]).map Prod.fst =
      [15, 30, 45, 60, 75, 90, 100, 100] := by
  constructor
  · intro pr power target hr hp
    obtain ⟨hp1, hp2⟩ := abs_le.mp hp
    have hkey : motorTickPower pr power target =
        abscap (rampStage pr power target) (activeLimit pr) := capStage_eq pr _
    refine ⟨?_, ?_, ?_⟩
    · have h1 : |rampStage pr power target - power| ≤ pr.ramp := by
        have : rampStage pr power target - power = abscap (target - power) pr.ramp := by
          unfold rampStage; ring
        rw [this]
        exact abscap_abs_le _ hr
      calc |motorTickPower pr power target - power|
          ≤ |rampStage pr power target - power| := by
            rw [hkey]; exact abscap_contract _ hp1 hp2
        _ ≤ pr.ramp := h1
    · intro hle htl
      obtain ⟨ht1, ht2⟩ := abs_le.mp htl
      have hd : 0 ≤ target - power := by linarith
      have hcap1 : 0 ≤ abscap (target - power) pr.ramp := abscap_nonneg hd hr
      have hcap2 : abscap (target - power) pr.ramp ≤ target - power :=
        abscap_le_self_of_nonneg hd hr
      have hramp1 : power ≤ rampStage pr power target := by
        unfold rampStage; linarith
      have hramp2 : rampStage pr power target ≤ target := by
        unfold rampStage; linarith
      have heq : motorTickPower pr power target = rampStage pr power target := by
        rw [hkey]
        exact abscap_eq_self (by linarith) (by linarith)
      rw [heq]
      exact ⟨hramp1, hramp2⟩
    · intro hstep hlim
      obtain ⟨hl1, hl2⟩ := abs_le.mp hlim
      have hfull : abscap (target - power) pr.ramp = pr.ramp := abscap_of_ge hr hstep
      have hramp : rampStage pr power target = power + pr.ramp := by
        unfold rampStage; rw [hfull]
      rw [hkey, hramp]
      exact abscap_eq_self hl1 hl2
  · norm_num [motorRun, motorStep, motorTickPower, rampStage, capStage, abscap]

/-- Witness for C5: with `RAMPING_POW = 15`, no cap, `MAX_POW = 127`,
stored power `0` and a requested jump to `100`, the tick output moves by
at most `15`, lands between `0` and `100`, and is exactly `0 + 15`. -/
theorem c5_witness :
    |motorTickPower ⟨15, false, 0, 127⟩ 0 100 - 0| ≤ (15 : ℚ) ∧
      0 ≤ motorTickPower ⟨15, false, 0, 127⟩ 0 100 ∧
        motorTickPower ⟨15, false, 0, 127⟩ 0 100 ≤ 100 ∧
          motorTickPower ⟨15, false, 0, 127⟩ 0 100 = 0 + 15 := by
  have h := c5_slew_rate_limit.1 ⟨15, false, 0, 127⟩ 0 100 (by norm_num)
    (by norm_num [activeLimit])
  exact ⟨h.1, (h.2.1 (by norm_num) (by norm_num [activeLimit])).1,
    (h.2.1 (by norm_num) (by norm_num [activeLimit])).2,
    h.2.2 (by norm_num) (by norm_num [activeLimit])⟩

/-- C7.  The capping stage of a `baseMotorControl` tick clamps the ramped
power to `±absPowerCap` when the cap is enabled and to `±MAX_POW`
otherwise, preserving sign: the output stays within the active limit,
keeps the sign of the ramped power, equals the limit exactly when the
ramped power reaches or exceeds it, and equals the negated limit exactly
when the ramped power is at or below its negation. -/
theorem c7_cap_clamp (pr : MotorParams) (power target : ℚ)
    (hL : 0 ≤ activeLimit pr) :
    |motorTickPower pr power target| ≤ activeLimit pr ∧
    (0 ≤ rampStage pr power target → 0 ≤ motorTickPower pr power target) ∧
    (rampStage pr power target ≤ 0 → motorTickPower pr power target ≤ 0) ∧
    (activeLimit pr ≤ rampStage pr power target →
      motorTickPower pr power target = activeLimit pr) ∧
    (rampStage pr power target ≤ -activeLimit pr →
      motorTickPower pr power target = -activeLimit pr) := by
  have hkey : motorTickPower pr power target =
      abscap (rampStage pr power target) (activeLimit pr) := capStage_eq pr _
  rw [hkey]
  refine ⟨abscap_abs_le _ hL, fun h => abscap_nonneg h hL, fun h => abscap_nonpos h hL,
    fun h => abscap_of_ge hL h, fun h => abscap_of_le_neg hL h⟩

/-- Witness for C7: cap enabled at `50`, ramp step `15`; a stored power
already at the cap with a requested target of `150` yields exactly `50`,
and symmetrically `-150` from `-50` yields exactly `-50`. -/
theorem c7_witness :
    motorTickPower ⟨15, true, 50, 127⟩ 50 150 = 50 ∧
      motorTickPower ⟨15, true, 50, 127⟩ (-50) (-150) = -50 := by
  constructor
  · exact (c7_cap_clamp ⟨15, true, 50, 127⟩ 50 150 (by norm_num [activeLimit])).2.2.2.1
      (by norm_num [activeLimit, rampStage, abscap])
  · exact (c7_cap_clamp ⟨15, true, 50, 127⟩ (-50) (-150) (by norm_num [activeLimit])).2.2.2.2
      (by norm_num [activeLimit, rampStage, abscap])

/-- C8.  Pause semantics of `baseMotorControl`: a paused tick updates the
loop-local power exactly as an unpaused one and writes nothing; an
unpaused tick writes exactly the new power; the whole power trace of a
run is unchanged if every pause flag is cleared; and appending one
unpaused tick to any run writes the ramped-and-capped continuation of the
persistent power accumulated over the run — resuming never re-ramps from
zero. -/
theorem c8_pause_semantics :
    (∀ (pr : MotorParams) (p t : ℚ),
        (motorStep pr p (true, t)).1 = (motorStep pr p (false, t)).1 ∧
        (motorStep pr p (true, t)).2 = none ∧
        (motorStep pr p (false, t)).2 = some ((motorStep pr p (false, t)).1)) ∧
    (∀ (pr : MotorParams) (p : ℚ) (is : List (Bool × ℚ)),
        (motorRun pr p is).map Prod.fst =
          (motorRun pr p (is.map (fun i => (false, i.2)))).map Prod.fst) ∧
    (∀ (pr : MotorParams) (p : ℚ) (is : List (Bool × ℚ)) (t : ℚ),
        motorRun pr p (is ++ [(false, t)]) =
          motorRun pr p is ++
            [(motorTickPower pr (powerAfter pr p is) t,
              some (motorTickPower pr (powerAfter pr p is) t))]) :=
  ⟨fun _ _ _ => ⟨rfl, rfl, rfl⟩,
    fun pr p is => motorRun_map_fst_clear pr is p,
    fun pr p is t => motorRun_append_unpaused pr is p t⟩

/-- C9, counterexample.  `resetCoords` is a plain sequence of updates
with no synchronisation: a loop tick that interleaves after its first
five statements (pose update and the four motor tares) observes both
side encoders already zeroed while both target encoder values still hold
their old value `100` — exactly the observation the claim rules out. -/
theorem c9_reset_not_atomic :
    (observeAfter 5 1 2 3 ⟨0, 0, 0, 500, 500, 500, 500, 100, 100⟩).encdBL = 0 ∧
    (observeAfter 5 1 2 3 ⟨0, 0, 0, 500, 500, 500, 500, 100, 100⟩).encdBR = 0 ∧
    (observeAfter 5 1 2 3 ⟨0, 0, 0, 500, 500, 500, 500, 100, 100⟩).targetEncdL ≠ 0 ∧
    (observeAfter 5 1 2 3 ⟨0, 0, 0, 500, 500, 500, 500, 100, 100⟩).targetEncdR ≠ 0 := by
  refine ⟨rfl, rfl, ?_, ?_⟩ <;> · show (100 : ℚ) ≠ 0; norm_num

/-- C9, amended.  `resetCoords(x, y, angleDeg)` sets the pose, zeroes all
four motor encoder counters and zeroes both target encoder values in
sequence, so once it has run to completion the targets and the encoders
are simultaneously zero; atomicity against an interleaved loop tick is
not provided (see the counterexample). -/
theorem c9_reset_sequential (x y a : ℚ) (s : SysSt) :
    resetCoords x y a s = ⟨x, y, a, 0, 0, 0, 0, 0, 0⟩ := rfl

end BaseCtl

namespace BaseCtl

/-! ### The motion-command layer, over the reals -/

noncomputable section

/-- The conversion constant `toRad` (degrees to radians), from the
project header outside the given sources; mathematically `π / 180`. -/
def toRad : ℝ := Real.pi / 180

/-- The constant `halfPI` from the project header outside the given
sources; mathematically `π / 2`. -/
def halfPI : ℝ := Real.pi / 2

/-- The C library function `atan2(y, x)`: the angle of the point
`(x, y)` measured from the positive x-axis, in `(-π, π]` (idealised over
the reals; `atan2(0, 0) = 0`).  The source calls it as
`atan2(errorX, errorY)` to obtain a bearing from the y-axis. -/
def atan2 (y x : ℝ) : ℝ :=
  if 0 < x then Real.arctan (y / x)
  else if x < 0 then
    (if 0 ≤ y then Real.arctan (y / x) + Real.pi else Real.arctan (y / x) - Real.pi)
  else
    (if 0 < y then Real.pi / 2 else if y < 0 then -(Real.pi / 2) else 0)

/-- The pose `(x, y, angle)` kept by the external position provider and
read by the motion commands. -/
structure Pose where
  x : ℝ
  y : ℝ
  angle : ℝ

/-- The two sequential corrections of `baseTurn(x, y, kp, kd)`
(lines 181-182 of `baseControl.cpp`):
`if(targAngle-position.angle > PI) targAngle -= twoPI;`
then, on the updated value,
`if(targAngle-position.angle < -PI) targAngle += twoPI;`. -/
def normalizeTarg (t a : ℝ) : ℝ :=
  if t - a > Real.pi then
    (if t - 2 * Real.pi - a < -Real.pi then t - 2 * Real.pi + 2 * Real.pi
      else t - 2 * Real.pi)
  else
    (if t - a < -Real.pi then t + 2 * Real.pi else t)

/-- The rotation `targAngle - position.angle` applied by
`baseTurn(x, y, kp, kd, reverse)`: bearing by `atan2`, plus `PI` when
`reverse` is set, then the two wrap corrections; the encoder deltas are
`±(this) * baseWidth / inPerDeg / 2`. -/
def turnTowardAngle (p : Pose) (x y : ℝ) (reverse : Bool) : ℝ :=
  normalizeTarg
    (bif reverse then atan2 (x - p.x) (y - p.y) + Real.pi
      else atan2 (x - p.x) (y - p.y)) p.angle - p.angle

/-- The signed encoder delta `distance/inPerDeg*reverse` that
`baseMove(x, y, kp, kd)` adds to both target encoder values, with
`reverse = -1` exactly when `fabs(targAngle - position.angle) >= halfPI`
and `1` otherwise. -/
def moveTowardDelta (p : Pose) (x y ipd : ℝ) : ℝ :=
  Real.sqrt ((x - p.x) * (x - p.x) + (y - p.y) * (y - p.y)) / ipd *
    (if halfPI ≤ |atan2 (x - p.x) (y - p.y) - p.angle| then -1 else 1)

/-- The shared control state written by every motion command: the two
cumulative target encoder values and the PD gains. -/
@[ext]
structure BaseSt where
  targetEncdL : ℝ
  targetEncdR : ℝ
  kP : ℝ
  kD : ℝ

/-- `baseMove(dis, kp, kd)`: move straight, adding `dis/inPerDeg` to both
target encoder values and overwriting the gains. -/
def baseMoveDis (ipd dis kp kd : ℝ) (s : BaseSt) : BaseSt :=
  { targetEncdL := s.targetEncdL + dis / ipd,
    targetEncdR := s.targetEncdR + dis / ipd,
    kP := kp, kD := kd }

/-- `baseMove(x, y, kp, kd)`: move toward a coordinate, adding the signed
delta `moveTowardDelta` to both target encoder values. -/
def baseMoveXY (ipd : ℝ) (p : Pose) (x y kp kd : ℝ) (s : BaseSt) : BaseSt :=
  { targetEncdL := s.targetEncdL + moveTowardDelta p x y ipd,
    targetEncdR := s.targetEncdR + moveTowardDelta p x y ipd,
    kP := kp, kD := kd }

/-- The angular error `angleDeg*toRad - position.angle` computed by
`baseTurn(angleDeg, kp, kd)` (line 131 of `baseControl.cpp`); no wrap
correction is applied to it. -/
def baseTurnAbsError (p : Pose) (angleDeg : ℝ) : ℝ :=
  angleDeg * toRad - p.angle

/-- `baseTurn(angleDeg, kp, kd)`: turn to an absolute bearing, adding
`+diff/2` and `-diff/2` to the target encoder values where
`diff = error * baseWidth / inPerDeg`. -/
def baseTurnAbs (ipd bw : ℝ) (p : Pose) (angleDeg kp kd : ℝ) (s : BaseSt) : BaseSt :=
  { targetEncdL := s.targetEncdL + baseTurnAbsError p angleDeg * bw / ipd / 2,
    targetEncdR := s.targetEncdR + -(baseTurnAbsError p angleDeg * bw / ipd / 2),
    kP := kp, kD := kd }

/-- `baseTurn(x, y, kp, kd, reverse)`: turn to a coordinate, adding
`±diff/2` where `diff = (targAngle - position.angle) * baseWidth /
inPerDeg` after the wrap corrections. -/
def baseTurnXY (ipd bw : ℝ) (p : Pose) (x y kp kd : ℝ) (reverse : Bool) (s : BaseSt) : BaseSt :=
  { targetEncdL := s.targetEncdL + turnTowardAngle p x y reverse * bw / ipd / 2,
    targetEncdR := s.targetEncdR + -(turnTowardAngle p x y reverse * bw / ipd / 2),
    kP := kp, kD := kd }

/-- `baseTurnRelative(angle, kp, kd)`: turn a relative angle, adding
`±diff/2` where `diff = angle*toRad*baseWidth/inPerDeg`. -/
def baseTurnRel (ipd bw angle kp kd : ℝ) (s : BaseSt) : BaseSt :=
  { targetEncdL := s.targetEncdL + angle * toRad * bw / ipd / 2,
    targetEncdR := s.targetEncdR + -(angle * toRad * bw / ipd / 2),
    kP := kp, kD := kd }

end

end BaseCtl

namespace BaseCtl

/-! ### Range lemmas for `atan2` and the wrap correction -/

theorem atan2_mem (y x : ℝ) : -Real.pi < atan2 y x ∧ atan2 y x ≤ Real.pi := by
  have hpi := Real.pi_pos
  unfold atan2
  split_ifs with h1 h2 h3 h4 h5
  · have hb1 := Real.neg_pi_div_two_lt_arctan (y / x)
    have hb2 := Real.arctan_lt_pi_div_two (y / x)
    constructor <;> linarith
  · have hb1 := Real.neg_pi_div_two_lt_arctan (y / x)
    have hyx : y / x ≤ 0 := div_nonpos_iff.mpr (Or.inl ⟨h3, h2.le⟩)
    have hb2 : Real.arctan (y / x) ≤ 0 := by
      have := Real.arctan_strictMono.monotone hyx
      rwa [Real.arctan_zero] at this
    constructor <;> linarith
  · have hyx : 0 < y / x := div_pos_iff.mpr (Or.inr ⟨lt_of_not_le h3, h2⟩)
    have hb1 : 0 < Real.arctan (y / x) := by
      have := Real.arctan_strictMono hyx
      rwa [Real.arctan_zero] at this
    have hb2 := Real.arctan_lt_pi_div_two (y / x)
    constructor <;> linarith
  · constructor <;> linarith
  · constructor <;> linarith
  · constructor <;> linarith

theorem normalizeTarg_sub_abs_le {t a : ℝ} (h1 : -(3 * Real.pi) ≤ t - a)
    (h2 : t - a ≤ 3 * Real.pi) : |normalizeTarg t a - a| ≤ Real.pi := by
  have hpi := Real.pi_pos
  unfold normalizeTarg
  split_ifs with ha hb hc <;> rw [abs_le] <;> constructor <;> linarith

theorem turnTowardAngle_abs_le (p : Pose) (x y : ℝ) (reverse : Bool)
    (h : |p.angle| ≤ Real.pi) : |turnTowardAngle p x y reverse| ≤ Real.pi := by
  have hpi := Real.pi_pos
  obtain ⟨h1, h2⟩ := abs_le.mp h
  obtain ⟨ht1, ht2⟩ := atan2_mem (x - p.x) (y - p.y)
  unfold turnTowardAngle
  cases reverse with
  | false =>
      exact normalizeTarg_sub_abs_le (by simp only [cond_false]; linarith)
        (by simp only [cond_false]; linarith)
  | true =>
      exact normalizeTarg_sub_abs_le (by simp only [cond_true]; linarith)
        (by simp only [cond_true]; linarith)

end BaseCtl

namespace BaseCtl

/-! ### Claim theorems for the motion-command layer -/

/-- C2, counterexample.  The single `±twoPI` correction in
`baseTurn(x, y, ...)` is not enough for every pose: at heading
`7π/2` (630°) with the target straight along the y-axis the applied
rotation is `-3π/2`, whose magnitude exceeds `π` — the claimed
shortest-rotation bound `|delta| ≤ 180°` fails for this pose and
target. -/
theorem c2_counterexample :
    Real.pi < |turnTowardAngle ⟨0, 0, 7 * Real.pi / 2⟩ 0 1 false| := by
  have hpi := Real.pi_pos
  have h0 : atan2 ((0 : ℝ) - 0) ((1 : ℝ) - 0) = 0 := by
    unfold atan2
    rw [if_pos (by norm_num)]
    norm_num [Real.arctan_zero]
  have hval : turnTowardAngle ⟨0, 0, 7 * Real.pi / 2⟩ 0 1 false
      = normalizeTarg 0 (7 * Real.pi / 2) - 7 * Real.pi / 2 := by
    unfold turnTowardAngle
    simp only [cond_false]
    rw [show ((0 : ℝ) - (Pose.mk 0 0 (7 * Real.pi / 2)).x) = 0 - 0 from rfl,
      show ((1 : ℝ) - (Pose.mk 0 0 (7 * Real.pi / 2)).y) = 1 - 0 from rfl, h0]
  rw [hval]
  unfold normalizeTarg
  rw [if_neg (by linarith), if_pos (by linarith)]
  rw [abs_of_neg (by linarith)]
  linarith

/-- C2, amended.  `baseTurn(x, y, kp, kd, reverse)` computes the bearing
`atan2(x - pose.x, y - pose.y)`, adds `π` when `reverse` is set, and
applies the two wrap corrections; whenever the current heading itself
lies within `[-π, π]`, the applied rotation satisfies `|delta| ≤ π`
(the unrestricted claim fails, see the counterexample). -/
theorem c2_turnToward_shortest (p : Pose) (x y : ℝ) (reverse : Bool)
    (h : |p.angle| ≤ Real.pi) : |turnTowardAngle p x y reverse| ≤ Real.pi :=
  turnTowardAngle_abs_le p x y reverse h

/-- Witness for C2: at the origin pose with heading `0` and target
`(0, 1)` the applied rotation is within `±π`. -/
theorem c2_witness : |turnTowardAngle ⟨0, 0, 0⟩ 0 1 false| ≤ Real.pi :=
  c2_turnToward_shortest ⟨0, 0, 0⟩ 0 1 false (by simpa using Real.pi_nonneg)

/-- C3.  `baseMove(x, y, kp, kd)` adds the Euclidean distance (converted
to encoder degrees) with negative sign to both targets exactly when the
absolute difference between the bearing `atan2(x - pose.x, y - pose.y)`
and the current heading is `≥ halfPI` (90°), and with positive sign
otherwise; in particular the applied delta is negative resp. positive
whenever the converted distance is nonzero. -/
theorem c3_moveToward_reverse (p : Pose) (x y ipd : ℝ) :
    (halfPI ≤ |atan2 (x - p.x) (y - p.y) - p.angle| →
      moveTowardDelta p x y ipd =
        -(Real.sqrt ((x - p.x) * (x - p.x) + (y - p.y) * (y - p.y)) / ipd) ∧
      (0 < Real.sqrt ((x - p.x) * (x - p.x) + (y - p.y) * (y - p.y)) / ipd →
        moveTowardDelta p x y ipd < 0)) ∧
    (|atan2 (x - p.x) (y - p.y) - p.angle| < halfPI →
      moveTowardDelta p x y ipd =
        Real.sqrt ((x - p.x) * (x - p.x) + (y - p.y) * (y - p.y)) / ipd ∧
      (0 < Real.sqrt ((x - p.x) * (x - p.x) + (y - p.y) * (y - p.y)) / ipd →
        0 < moveTowardDelta p x y ipd)) := by
  unfold moveTowardDelta
  constructor
  · intro h
    rw [if_pos h]
    refine ⟨by ring, fun hd => by nlinarith⟩
  · intro h
    rw [if_neg (not_le.mpr h)]
    refine ⟨by ring, fun hd => by nlinarith⟩

/-- Witness for C3: from the origin pose with heading `0`, moving toward
`(0, 1)` (bearing `0`, difference `0 < 90°`) with `inPerDeg = 1` applies
a positive delta. -/
theorem c3_witness : 0 < moveTowardDelta ⟨0, 0, 0⟩ 0 1 1 := by
  have hpi := Real.pi_pos
  have h0 : atan2 ((0 : ℝ) - (Pose.mk 0 0 0).x) ((1 : ℝ) - (Pose.mk 0 0 0).y) = 0 := by
    unfold atan2
    rw [if_pos (by norm_num)]
    norm_num [Real.arctan_zero]
  have hd : (0 : ℝ) <
      Real.sqrt (((0 : ℝ) - (Pose.mk 0 0 0).x) * ((0 : ℝ) - (Pose.mk 0 0 0).x) +
        ((1 : ℝ) - (Pose.mk 0 0 0).y) * ((1 : ℝ) - (Pose.mk 0 0 0).y)) / 1 := by
    norm_num
  have hdiff : |atan2 ((0 : ℝ) - (Pose.mk 0 0 0).x) ((1 : ℝ) - (Pose.mk 0 0 0).y)
      - (Pose.mk 0 0 0).angle| < halfPI := by
    rw [h0]
    unfold halfPI
    norm_num
    linarith
  exact ((c3_moveToward_reverse ⟨0, 0, 0⟩ 0 1 1).2 hdiff).2 hd

end BaseCtl

namespace BaseCtl

/-- C6.  Every motion command adds its delta to the cumulative target
encoder values instead of replacing them: for each of the five commands
the change of each target encoder value is independent of the state the
command is applied to; and two straight moves of `10` and `5` inches
issued back to back produce exactly the state of a single `15`-inch
move. -/
theorem c6_commands_additive :
    (∀ (ipd dis kp kd : ℝ) (s t : BaseSt),
        (baseMoveDis ipd dis kp kd s).targetEncdL - s.targetEncdL =
          (baseMoveDis ipd dis kp kd t).targetEncdL - t.targetEncdL ∧
        (baseMoveDis ipd dis kp kd s).targetEncdR - s.targetEncdR =
          (baseMoveDis ipd dis kp kd t).targetEncdR - t.targetEncdR) ∧
    (∀ (ipd : ℝ) (p : Pose) (x y kp kd : ℝ) (s t : BaseSt),
        (baseMoveXY ipd p x y kp kd s).targetEncdL - s.targetEncdL =
          (baseMoveXY ipd p x y kp kd t).targetEncdL - t.targetEncdL ∧
        (baseMoveXY ipd p x y kp kd s).targetEncdR - s.targetEncdR =
          (baseMoveXY ipd p x y kp kd t).targetEncdR - t.targetEncdR) ∧
    (∀ (ipd bw : ℝ) (p : Pose) (angleDeg kp kd : ℝ) (s t : BaseSt),
        (baseTurnAbs ipd bw p angleDeg kp kd s).targetEncdL - s.targetEncdL =
          (baseTurnAbs ipd bw p angleDeg kp kd t).targetEncdL - t.targetEncdL ∧
        (baseTurnAbs ipd bw p angleDeg kp kd s).targetEncdR - s.targetEncdR =
          (baseTurnAbs ipd bw p angleDeg kp kd t).targetEncdR - t.targetEncdR) ∧
    (∀ (ipd bw : ℝ) (p : Pose) (x y kp kd : ℝ) (reverse : Bool) (s t : BaseSt),
        (baseTurnXY ipd bw p x y kp kd reverse s).targetEncdL - s.targetEncdL =
          (baseTurnXY ipd bw p x y kp kd reverse t).targetEncdL - t.targetEncdL ∧
        (baseTurnXY ipd bw p x y kp kd reverse s).targetEncdR - s.targetEncdR =
          (baseTurnXY ipd bw p x y kp kd reverse t).targetEncdR - t.targetEncdR) ∧
    (∀ (ipd bw angle kp kd : ℝ) (s t : BaseSt),
        (baseTurnRel ipd bw angle kp kd s).targetEncdL - s.targetEncdL =
          (baseTurnRel ipd bw angle kp kd t).targetEncdL - t.targetEncdL ∧
        (baseTurnRel ipd bw angle kp kd s).targetEncdR - s.targetEncdR =
          (baseTurnRel ipd bw angle kp kd t).targetEncdR - t.targetEncdR) ∧
    (∀ (ipd kp kd : ℝ) (s : BaseSt),
        baseMoveDis ipd 5 kp kd (baseMoveDis ipd 10 kp kd s) =
          baseMoveDis ipd 15 kp kd s) := by
  refine ⟨fun ipd dis kp kd s t => ⟨by simp [baseMoveDis], by simp [baseMoveDis]⟩,
    fun ipd p x y kp kd s t => ⟨by simp [baseMoveXY], by simp [baseMoveXY]⟩,
    fun ipd bw p angleDeg kp kd s t => ⟨by simp [baseTurnAbs], by simp [baseTurnAbs]⟩,
    fun ipd bw p x y kp kd reverse s t => ⟨by simp [baseTurnXY], by simp [baseTurnXY]⟩,
    fun ipd bw angle kp kd s t => ⟨by simp [baseTurnRel], by simp [baseTurnRel]⟩,
    fun ipd kp kd s => ?_⟩
  ext <;> simp [baseMoveDis] <;> ring

/-- C10.  `baseTurn(angleDeg, kp, kd)` applies no wrap correction to its
angular error `angleDeg*toRad - position.angle`: at heading `170°` a
request for the absolute bearing `-170°` yields an error of magnitude
`340°·toRad > π`, i.e. a rotation beyond `180°`; whereas
`baseTurn(x, y, ...)` at that same heading keeps every applied rotation
within `±π`. -/
theorem c10_turnAbs_no_wrap :
    Real.pi < |baseTurnAbsError ⟨0, 0, 170 * toRad⟩ (-170)| ∧
    (∀ (x y : ℝ) (reverse : Bool),
        |turnTowardAngle ⟨0, 0, 170 * toRad⟩ x y reverse| ≤ Real.pi) := by
  have hpi := Real.pi_pos
  constructor
  · show Real.pi < |(-170 : ℝ) * toRad - 170 * toRad|
    unfold toRad
    rw [abs_of_neg (by nlinarith)]
    nlinarith
  · intro x y reverse
    apply turnTowardAngle_abs_le
    show |170 * toRad| ≤ Real.pi
    unfold toRad
    rw [abs_of_nonneg (by positivity)]
    nlinarith

end BaseCtl
